import Mathlib

/-!
Verification of the MCP client/manager subsystem of tamago-labs/decentral-mcp-server.

The definitions below are a shallow embedding of `src/mcp-client.js` and
`src/mcp-manager.js`.  Strings from the child process are modelled as `List Char`,
the JavaScript `Map` objects as insertion-ordered association lists, promise
resolution/rejection and event-emitter emissions as explicit event lists, and the
timer callbacks (`setTimeout`) as separate trace actions that may fire at any
later point of the execution.
-/

namespace MCP

/-! ## Stdout framing (`handleStdout`, mcp-client.js lines 71-86)

JavaScript `buffer.split('\n')` on a string returns one more piece than there are
newlines (so it is never empty); `lines.pop()` removes and returns the trailing
fragment, which is kept as the new buffer, and the remaining complete lines are
trimmed, empty ones skipped, and parsed as JSON.  `splitNl` reproduces the
splitting, `lastOr`/`dropLast` reproduce the `pop`, and `processLine` reproduces
the per-line handling with the JSON parser abstracted as `parse` (returning
`none` both for a parse failure, which the source logs and drops, and never
otherwise inspecting the text).
-/

/-- Whitespace test used by the model of JavaScript `String.prototype.trim`. -/
def isWsChar (c : Char) : Bool :=
  c = ' ' || c = '\t' || c = '\n' || c = '\r'

/-- Model of `line.trim()`: strip whitespace from both ends. -/
def trimChars (l : List Char) : List Char :=
  ((l.dropWhile isWsChar).reverse.dropWhile isWsChar).reverse

/-- Model of JavaScript `s.split('\n')`: the resulting list is never empty and
concatenating its pieces with `'\n'` between them restores `s`. -/
def splitNl : List Char → List (List Char)
  | [] => [[]]
  | c :: cs =>
    if c = '\n' then [] :: splitNl cs
    else
      match splitNl cs with
      | [] => [[c]]
      | l :: ls => (c :: l) :: ls

/-- Model of `lines.pop() || ''` (the popped last element of a nonempty list,
or the empty string). -/
def lastOr : List (List Char) → List Char
  | [] => []
  | [x] => x
  | _ :: y :: ys => lastOr (y :: ys)

/-- Prepend a fragment onto the first piece of a split (helper for reasoning
about `splitNl` of a concatenation). -/
def glueHead (x : List Char) : List (List Char) → List (List Char)
  | [] => [x]
  | l :: ls => (x ++ l) :: ls

/-- Per-line handling in the `for` loop of `handleStdout`: skip lines that are
empty after trimming (`if (line.trim())`), otherwise parse the trimmed line;
a parse failure (`parse` returning `none`) is logged and dropped. -/
def processLine (parse : List Char → Option α) (line : List Char) : Option α :=
  if trimChars line = [] then none else parse (trimChars line)

/-- Model of `handleStdout(data)` (mcp-client.js lines 71-86): append the chunk
to the buffer, split on newline, keep the trailing fragment as the new buffer,
and dispatch every parsed complete line.  Returns the new buffer and the list
of messages dispatched to `handleResponse`, in order. -/
def handleStdout (parse : List Char → Option α) (buf data : List Char) :
    List Char × List α :=
  let lines := splitNl (buf ++ data)
  (lastOr lines, (lines.dropLast).filterMap (processLine parse))

theorem splitNl_ne_nil : ∀ l : List Char, splitNl l ≠ [] := by
  intro l
  cases l with
  | nil => simp [splitNl]
  | cons c cs =>
    simp only [splitNl]
    split
    · simp
    · split <;> simp

theorem glueHead_ne_nil (x : List Char) (ls : List (List Char)) :
    glueHead x ls ≠ [] := by
  cases ls <;> simp [glueHead]

theorem lastOr_append (xs : List (List Char)) {ys : List (List Char)}
    (h : ys ≠ []) : lastOr (xs ++ ys) = lastOr ys := by
  induction xs with
  | nil => rfl
  | cons x xs ih =>
    cases xs with
    | nil =>
      cases ys with
      | nil => exact absurd rfl h
      | cons y ys => simp [lastOr]
    | cons x2 xs2 => simpa [lastOr] using ih

theorem dropLast_append_ne (xs : List (List Char)) {ys : List (List Char)}
    (h : ys ≠ []) : (xs ++ ys).dropLast = xs ++ ys.dropLast := by
  induction xs with
  | nil => rfl
  | cons x xs ih =>
    have h2 : xs ++ ys ≠ [] := by
      intro hc
      rcases List.append_eq_nil.mp hc with ⟨_, h3⟩
      exact h h3
    cases hx : xs ++ ys with
    | nil => exact absurd hx h2
    | cons z zs =>
      simp only [List.cons_append, hx, List.dropLast_cons₂]
      rw [← hx, ih]

theorem splitNl_nil : splitNl [] = [[]] := rfl

theorem splitNl_cons_nl (cs : List Char) : splitNl ('\n' :: cs) = [] :: splitNl cs := by
  simp [splitNl]

theorem splitNl_cons (c : Char) (cs : List Char) (hc : ¬ c = '\n') (m : List Char)
    (ms : List (List Char)) (hcs : splitNl cs = m :: ms) :
    splitNl (c :: cs) = (c :: m) :: ms := by
  simp [splitNl, hc, hcs]

theorem splitNl_append : ∀ a b : List Char,
    splitNl (a ++ b) = (splitNl a).dropLast ++ glueHead (lastOr (splitNl a)) (splitNl b) := by
  intro a
  induction a with
  | nil =>
    intro b
    cases hb : splitNl b with
    | nil => exact absurd hb (splitNl_ne_nil b)
    | cons m ms => simp [splitNl_nil, lastOr, glueHead, hb]
  | cons c cs ih =>
    intro b
    by_cases hc : c = '\n'
    · subst hc
      cases hcs : splitNl cs with
      | nil => exact absurd hcs (splitNl_ne_nil cs)
      | cons m ms =>
        have hih := ih b
        rw [hcs] at hih
        rw [List.cons_append, splitNl_cons_nl, splitNl_cons_nl, hcs, hih]
        cases ms with
        | nil => simp [lastOr, glueHead]
        | cons m2 ms2 => simp [lastOr, List.dropLast_cons₂]
    · cases hcs : splitNl cs with
      | nil => exact absurd hcs (splitNl_ne_nil cs)
      | cons m ms =>
        cases hb : splitNl b with
        | nil => exact absurd hb (splitNl_ne_nil b)
        | cons n ns =>
          have hih := ih b
          rw [hcs, hb] at hih
          cases ms with
          | nil =>
            have h1 : splitNl (cs ++ b) = (m ++ n) :: ns := by
              rw [hih]; simp [lastOr, glueHead]
            rw [List.cons_append, splitNl_cons c (cs ++ b) hc _ _ h1,
                splitNl_cons c cs hc _ _ hcs]
            simp [lastOr, glueHead, hb]
          | cons m2 ms2 =>
            have h1 : splitNl (cs ++ b) =
                m :: ((m2 :: ms2).dropLast ++ (lastOr (m2 :: ms2) ++ n) :: ns) := by
              rw [hih]; simp [lastOr, glueHead, List.dropLast_cons₂]
            rw [List.cons_append, splitNl_cons c (cs ++ b) hc _ _ h1,
                splitNl_cons c cs hc _ _ hcs]
            simp [lastOr, glueHead, hb, List.dropLast_cons₂]

theorem splitNl_mem_no_newline : ∀ (l : List Char) (x : List Char),
    x ∈ splitNl l → '\n' ∉ x := by
  intro l
  induction l with
  | nil =>
    intro x hx
    rw [splitNl_nil] at hx
    have h := List.mem_singleton.mp hx
    rw [h]
    exact List.not_mem_nil _
  | cons c cs ih =>
    intro x hx
    cases hcs : splitNl cs with
    | nil => exact absurd hcs (splitNl_ne_nil cs)
    | cons m ms =>
      by_cases hc : c = '\n'
      · subst hc
        rw [splitNl_cons_nl] at hx
        rcases List.mem_cons.mp hx with h | h
        · rw [h]; exact List.not_mem_nil _
        · exact ih x h
      · rw [splitNl_cons c cs hc m ms hcs] at hx
        rcases List.mem_cons.mp hx with h | h
        · rw [h]
          intro hmem
          rcases List.mem_cons.mp hmem with h2 | h2
          · exact hc h2.symm
          · exact ih m (by rw [hcs]; exact List.mem_cons_self m ms) h2
        · exact ih x (by rw [hcs]; exact List.mem_cons_of_mem m h)

theorem lastOr_mem : ∀ (ls : List (List Char)), ls ≠ [] → lastOr ls ∈ ls := by
  intro ls
  induction ls with
  | nil => intro h; exact absurd rfl h
  | cons x xs ih =>
    intro _
    cases xs with
    | nil => simp [lastOr]
    | cons y ys =>
      simp only [lastOr]
      exact List.mem_cons_of_mem x (ih (by simp))

theorem no_newline_lastOr_splitNl (l : List Char) : '\n' ∉ lastOr (splitNl l) :=
  splitNl_mem_no_newline l _ (lastOr_mem _ (splitNl_ne_nil l))

theorem splitNl_of_no_newline : ∀ l : List Char, '\n' ∉ l → splitNl l = [l] := by
  intro l
  induction l with
  | nil => intro _; rfl
  | cons c cs ih =>
    intro h
    have hc : ¬ c = '\n' := fun hc => h (by rw [hc]; exact List.mem_cons_self _ _)
    have hcs : splitNl cs = [cs] := ih (fun hm => h (List.mem_cons_of_mem c hm))
    rw [splitNl_cons c cs hc cs [] hcs]

/-- Framing is chunk-boundary independent: feeding `c1 ++ c2` as one chunk
produces the same final buffer and the same dispatched messages as feeding
`c1` and then `c2`. -/
theorem handleStdout_append (parse : List Char → Option α) (buf c1 c2 : List Char) :
    handleStdout parse buf (c1 ++ c2) =
      ((handleStdout parse (handleStdout parse buf c1).1 c2).1,
       (handleStdout parse buf c1).2 ++
         (handleStdout parse (handleStdout parse buf c1).1 c2).2) := by
  have hA : splitNl ((buf ++ c1) ++ c2) =
      (splitNl (buf ++ c1)).dropLast ++
        glueHead (lastOr (splitNl (buf ++ c1))) (splitNl c2) := splitNl_append _ _
  have hB : splitNl (lastOr (splitNl (buf ++ c1)) ++ c2) =
      glueHead (lastOr (splitNl (buf ++ c1))) (splitNl c2) := by
    rw [splitNl_append, splitNl_of_no_newline _ (no_newline_lastOr_splitNl (buf ++ c1))]
    simp [lastOr, glueHead]
  have hg : glueHead (lastOr (splitNl (buf ++ c1))) (splitNl c2) ≠ [] :=
    glueHead_ne_nil _ _
  simp only [handleStdout, ← List.append_assoc, hA, hB]
  rw [lastOr_append _ hg, dropLast_append_ne _ hg, List.filterMap_append]

/-! ## Child Connection runtime (mcp-client.js)

A connection's mutable fields (`this.process`, `this.process.killed`,
`this.requestId`, `this.pendingRequests`, `this.initialized`) are collected in
`CState`.  The externally triggered callbacks of the source are the actions of
a trace: a user calling `sendRequest` (with the synchronous `stdin.write`
outcome as a parameter), a parsed stdout object reaching `handleResponse`, the
30-second per-request timer firing, `cleanup()` being invoked (by the `exit`
handler or by `disconnect`), and the 5-second forced-kill timer scheduled by
`cleanup` firing.  Promise settlements, event-emitter emissions and signals
sent to the child are recorded as events.
-/

/-- Parsed JSON object handed to `handleResponse`: an optional numeric `id`,
whether a truthy `error` field is present, and an optional `method` string.
JavaScript truthiness: `response.id` is truthy iff it is a number other than 0,
`response.method` is truthy iff it is a nonempty string. -/
structure Msg where
  id : Option Nat
  hasError : Bool
  method : Option (List Char)
deriving DecidableEq

/-- Truthiness of `response.id` (mcp-client.js line 240). -/
def idTruthy (m : Msg) : Bool :=
  match m.id with
  | some n => n ≠ 0
  | none => false

/-- Truthiness of `response.method` (mcp-client.js line 249). -/
def methodTruthy (m : Msg) : Bool :=
  match m.method with
  | some s => ¬ s.isEmpty
  | none => false

/-- Observable events of a Child Connection: a request waiter being created
(`sent`, with the synchronous write outcome), the five ways a waiter can be
settled, a server notification being emitted, the `disconnected` emission, and
signals sent to the child process. -/
inductive Ev where
  | sent (id : Nat) (writeOk : Bool)
  | resolved (id : Nat)
  | rejectedError (id : Nat)
  | rejectedTimeout (id : Nat)
  | rejectedClosed (id : Nat)
  | rejectedWrite (id : Nat)
  | notif (name : List Char)
  | disconnectedSig
  | sigterm
  | sigkill
deriving DecidableEq

/-- Mutable state of one `MCPClient` instance. `processLive` is `this.process
!== null`; `procKilled` is the `killed` flag of the underlying process object
(set once a signal has been delivered to it via `kill`), which the forced-kill
timer closure can still read after `this.process` was nulled. -/
structure CState where
  processLive : Bool
  procKilled : Bool
  requestId : Nat
  pending : List Nat
  inited : Bool
deriving DecidableEq

/-- External stimuli driving one connection from the `[ready]` state. -/
inductive Act where
  | send (writeOk : Bool)
  | recv (m : Msg)
  | timerFire (id : Nat)
  | cleanupAct
  | forceKill
deriving DecidableEq

/-- Model of `sendRequest` (mcp-client.js lines 189-216) together with the id
allocation `getNextRequestId()` (line 186) done by its callers while building
the request.  If `this.process?.stdin` is unavailable the promise is rejected
without a waiter ever entering `pendingRequests`; otherwise the waiter is
stored under the fresh id and, when the synchronous `stdin.write` callback
reports an error, immediately removed and rejected with a write error. -/
def sendStep (s : CState) (writeOk : Bool) : CState × List Ev :=
  let id := s.requestId
  let s1 := { s with requestId := s.requestId + 1 }
  if s.processLive then
    let p1 := s1.pending ++ [id]
    if writeOk then
      ({ s1 with pending := p1 }, [Ev.sent id true])
    else
      ({ s1 with pending := p1.erase id }, [Ev.sent id false, Ev.rejectedWrite id])
  else
    (s1, [])

/-- Model of `handleResponse` (mcp-client.js lines 237-254): a message whose
truthy `id` matches a pending waiter removes and settles that waiter (rejected
iff the message carries an `error`); otherwise, a message with a truthy
`method` is emitted as a server notification; anything else is only logged. -/
def recvStep (s : CState) (m : Msg) : CState × List Ev :=
  match m.id with
  | some i =>
    if idTruthy m ∧ i ∈ s.pending then
      ({ s with pending := s.pending.erase i },
       if m.hasError then [Ev.rejectedError i] else [Ev.resolved i])
    else if methodTruthy m then
      (s, [Ev.notif (m.method.getD [])])
    else
      (s, [])
  | none =>
    if methodTruthy m then
      (s, [Ev.notif (m.method.getD [])])
    else
      (s, [])

/-- Model of the 30-second timer callback scheduled by `sendRequest`
(mcp-client.js lines 209-214): if the id is still pending, remove it and
reject the waiter with a timeout error; otherwise do nothing. -/
def timerStep (s : CState) (id : Nat) : CState × List Ev :=
  if id ∈ s.pending then
    ({ s with pending := s.pending.erase id }, [Ev.rejectedTimeout id])
  else
    (s, [])

/-- Model of `cleanup()` (mcp-client.js lines 275-298): if `this.process` is
non-null, send SIGTERM (which marks the process object killed), schedule the
forced-kill timer, and null out `this.process`; then reject every pending
waiter with a connection-closed error, clear the table, drop `initialized`,
and emit `disconnected`. -/
def cleanupStep (s : CState) : CState × List Ev :=
  let killPart :=
    if s.processLive then
      ({ s with processLive := false, procKilled := true }, [Ev.sigterm])
    else
      (s, ([] : List Ev))
  let s1 := killPart.1
  ({ s1 with pending := [], inited := false },
   killPart.2 ++ s1.pending.map Ev.rejectedClosed ++ [Ev.disconnectedSig])

/-- Model of the forced-kill timer callback scheduled inside `cleanup`
(mcp-client.js lines 280-285): `if (this.process && !this.process.killed)
this.process.kill('SIGKILL')`. -/
def forceKillStep (s : CState) : CState × List Ev :=
  if s.processLive ∧ ¬ s.procKilled then
    ({ s with procKilled := true }, [Ev.sigkill])
  else
    (s, [])

/-- One trace step of a Child Connection. -/
def step (s : CState) : Act → CState × List Ev
  | Act.send writeOk => sendStep s writeOk
  | Act.recv m => recvStep s m
  | Act.timerFire id => timerStep s id
  | Act.cleanupAct => cleanupStep s
  | Act.forceKill => forceKillStep s

/-- Run a trace, accumulating the emitted events in order. -/
def run (s : CState) : List Act → CState × List Ev
  | [] => (s, [])
  | a :: rest =>
    let p := step s a
    let q := run p.1 rest
    (q.1, p.2 ++ q.2)

/-- State of a connection right after a successful `connect` (`[ready]`):
live process, empty pending table, handshake finished.  The id counter is
left arbitrary (it is 2 after the handshake consumed id 1). -/
def ready (rid : Nat) : CState :=
  { processLive := true, procKilled := false, requestId := rid,
    pending := [], inited := true }

/-- Does this event settle the waiter of request `id` (by response, timeout,
teardown, or synchronous write failure)? -/
def isOutcome (id : Nat) : Ev → Bool
  | Ev.resolved i => i == id
  | Ev.rejectedError i => i == id
  | Ev.rejectedTimeout i => i == id
  | Ev.rejectedClosed i => i == id
  | Ev.rejectedWrite i => i == id
  | _ => false

/-- Is this the `sent` event of request `id`? -/
def isSentEv (id : Nat) : Ev → Bool
  | Ev.sent i _ => i == id
  | _ => false

/-- Number of settlement events for request `id` in an event list. -/
def outcomeCount (id : Nat) (evs : List Ev) : Nat :=
  evs.countP (isOutcome id)

/-- Number of `sent` events for request `id` in an event list. -/
def sentCount (id : Nat) (evs : List Ev) : Nat :=
  evs.countP (isSentEv id)

/-- Number of `disconnected` emissions in an event list. -/
def disconnCount (evs : List Ev) : Nat :=
  evs.countP (fun e => e == Ev.disconnectedSig)

/-- Number of `cleanup()` invocations in a trace. -/
def cleanupCount (acts : List Act) : Nat :=
  acts.countP (fun a => a == Act.cleanupAct)

/-- Core invariant tying a connection state to the events emitted so far:
every request has been settled exactly as many times as it was issued minus
its (0 or 1) live entries in `pending`; no request is issued twice; ids at or
above the counter are unissued; and a request whose write succeeded is never
settled by a write error. -/
def Inv (s : CState) (evs : List Ev) : Prop :=
  ∀ id : Nat,
    sentCount id evs = outcomeCount id evs + s.pending.count id ∧
    sentCount id evs ≤ 1 ∧
    (s.requestId ≤ id → sentCount id evs = 0) ∧
    (Ev.sent id true ∈ evs → Ev.rejectedWrite id ∉ evs)

theorem run_append (s : CState) (xs ys : List Act) :
    run s (xs ++ ys) =
      ((run (run s xs).1 ys).1, (run s xs).2 ++ (run (run s xs).1 ys).2) := by
  induction xs generalizing s with
  | nil => simp [run]
  | cons a xs ih => simp [run, ih, List.append_assoc]

theorem sentCount_append (id : Nat) (l1 l2 : List Ev) :
    sentCount id (l1 ++ l2) = sentCount id l1 + sentCount id l2 := by
  simp [sentCount, List.countP_append]

theorem outcomeCount_append (id : Nat) (l1 l2 : List Ev) :
    outcomeCount id (l1 ++ l2) = outcomeCount id l1 + outcomeCount id l2 := by
  simp [outcomeCount, List.countP_append]

theorem disconnCount_append (l1 l2 : List Ev) :
    disconnCount (l1 ++ l2) = disconnCount l1 + disconnCount l2 := by
  simp [disconnCount, List.countP_append]

theorem outcomeCount_closedMap (id : Nat) (p : List Nat) :
    outcomeCount id (p.map Ev.rejectedClosed) = p.count id := by
  induction p with
  | nil => rfl
  | cons x xs ih =>
    simp only [List.map_cons, outcomeCount, List.countP_cons] at ih ⊢
    rw [ih, List.count_cons]
    rfl

theorem sent_mem_le (id : Nat) (b : Bool) (evs : List Ev) (h : Ev.sent id b ∈ evs) :
    1 ≤ sentCount id evs := by
  have hp : isSentEv id (Ev.sent id b) = true := by simp [isSentEv]
  exact List.countP_pos_iff.mpr ⟨_, h, hp⟩

theorem rejW_mem_le (id : Nat) (evs : List Ev) (h : Ev.rejectedWrite id ∈ evs) :
    1 ≤ outcomeCount id evs := by
  have hp : isOutcome id (Ev.rejectedWrite id) = true := by simp [isOutcome]
  exact List.countP_pos_iff.mpr ⟨_, h, hp⟩

theorem sentCount_single (id : Nat) (e : Ev) :
    sentCount id [e] = if isSentEv id e then 1 else 0 := by
  simp [sentCount, List.countP_cons]

theorem outcomeCount_single (id : Nat) (e : Ev) :
    outcomeCount id [e] = if isOutcome id e then 1 else 0 := by
  simp [outcomeCount, List.countP_cons]

/-- Appending events that neither issue nor settle any request preserves the
invariant, as long as the state keeps its pending table and id counter. -/
theorem Inv_frame (s s2 : CState) (evs l : List Ev)
    (hpend : s2.pending = s.pending) (hreq : s2.requestId = s.requestId)
    (hS : ∀ id, sentCount id l = 0) (hO : ∀ id, outcomeCount id l = 0)
    (hT : ∀ id, Ev.sent id true ∉ l) (hW : ∀ id, Ev.rejectedWrite id ∉ l)
    (h : Inv s evs) : Inv s2 (evs ++ l) := by
  intro id
  obtain ⟨hbal, hle, hfresh, hwr⟩ := h id
  rw [hpend, hreq]
  refine ⟨?_, ?_, ?_, ?_⟩
  · rw [sentCount_append, outcomeCount_append, hS, hO]
    omega
  · rw [sentCount_append, hS]
    omega
  · intro hge
    rw [sentCount_append, hS, hfresh hge]
  · intro hmem hmem2
    rcases List.mem_append.mp hmem with hm | hm
    · rcases List.mem_append.mp hmem2 with hm2 | hm2
      · exact hwr hm hm2
      · exact hW id hm2
    · exact hT id hm

/-- Removing a pending id and appending the single event that settles exactly
that id preserves the invariant (covers `handleResponse` on a match and the
request timeout firing). -/
theorem Inv_settle (s : CState) (evs : List Ev) (i : Nat) (e : Ev)
    (hmem : i ∈ s.pending)
    (hS : ∀ id, isSentEv id e = false)
    (hO : ∀ id, isOutcome id e = (i == id))
    (hW : ∀ id, ¬ e = Ev.rejectedWrite id)
    (h : Inv s evs) :
    Inv { s with pending := s.pending.erase i } (evs ++ [e]) := by
  intro id
  obtain ⟨hbal, hle, hfresh, hwr⟩ := h id
  by_cases hid : i = id
  · subst hid
    have hpos : 1 ≤ s.pending.count i := List.count_pos_iff.mpr hmem
    refine ⟨?_, ?_, ?_, ?_⟩
    · rw [sentCount_append, outcomeCount_append, sentCount_single,
        outcomeCount_single, hS, hO, List.count_erase_self]
      simp only [if_false, beq_self_eq_true, if_true, Bool.false_eq_true]
      omega
    · rw [sentCount_append, sentCount_single, hS]
      simp only [if_false, Bool.false_eq_true]
      omega
    · intro hge
      rw [sentCount_append, sentCount_single, hS, hfresh hge]
      simp
    · intro hmem1 hmem2
      rcases List.mem_append.mp hmem1 with hm | hm
      · rcases List.mem_append.mp hmem2 with hm2 | hm2
        · exact hwr hm hm2
        · exact hW i (List.mem_singleton.mp hm2).symm
      · have := hS i
        rw [← List.mem_singleton.mp hm] at this
        simp [isSentEv] at this
  · have hne : (i == id) = false := by simp [hid]
    refine ⟨?_, ?_, ?_, ?_⟩
    · rw [sentCount_append, outcomeCount_append, sentCount_single,
        outcomeCount_single, hS, hO, hne,
        List.count_erase_of_ne (fun hc => hid hc.symm)]
      simp only [if_false, Bool.false_eq_true]
      omega
    · rw [sentCount_append, sentCount_single, hS]
      simp only [if_false, Bool.false_eq_true]
      omega
    · intro hge
      rw [sentCount_append, sentCount_single, hS, hfresh hge]
      simp
    · intro hmem1 hmem2
      rcases List.mem_append.mp hmem1 with hm | hm
      · rcases List.mem_append.mp hmem2 with hm2 | hm2
        · exact hwr hm hm2
        · exact hW id (List.mem_singleton.mp hm2).symm
      · have := hS id
        rw [← List.mem_singleton.mp hm] at this
        simp [isSentEv] at this

theorem sendStep_preserves (s : CState) (evs : List Ev) (writeOk : Bool)
    (h : Inv s evs) :
    Inv (sendStep s writeOk).1 (evs ++ (sendStep s writeOk).2) := by
  obtain ⟨hbalR, hleR, hfreshR, hwrR⟩ := h s.requestId
  have hsent0 : sentCount s.requestId evs = 0 := hfreshR (le_refl _)
  have hout0 : outcomeCount s.requestId evs = 0 := by omega
  have hcnt0 : s.pending.count s.requestId = 0 := by omega
  have hnotmem : s.requestId ∉ s.pending := List.count_eq_zero.mp hcnt0
  by_cases hp : s.processLive = true
  · by_cases hw : writeOk = true
    · subst hw
      simp only [sendStep, hp, if_true]
      intro id
      dsimp only
      obtain ⟨hbal, hle, hfresh, hwr⟩ := h id
      by_cases hid : id = s.requestId
      · rw [hid]
        have eS : sentCount s.requestId [Ev.sent s.requestId true] = 1 := by
          rw [sentCount_single]
          simp [isSentEv]
        have eO : outcomeCount s.requestId [Ev.sent s.requestId true] = 0 := by
          rw [outcomeCount_single]
          simp [isOutcome]
        have eP : (s.pending ++ [s.requestId]).count s.requestId
            = s.pending.count s.requestId + 1 := by
          simp [List.count_append]
        refine ⟨?_, ?_, ?_, ?_⟩
        · rw [sentCount_append, outcomeCount_append, eS, eO, eP, hsent0, hout0, hcnt0]
        · rw [sentCount_append, eS, hsent0]
        · intro hge
          exact absurd (show s.requestId + 1 ≤ s.requestId from hge) (by omega)
        · intro _ hmem
          rcases List.mem_append.mp hmem with hm | hm
          · have := rejW_mem_le _ _ hm
            omega
          · simp at hm
      · have hne : ¬ s.requestId = id := fun e => hid e.symm
        have eS : sentCount id [Ev.sent s.requestId true] = 0 := by
          rw [sentCount_single]
          simp [isSentEv, hne]
        have eO : outcomeCount id [Ev.sent s.requestId true] = 0 := by
          rw [outcomeCount_single]
          simp [isOutcome]
        have eP : (s.pending ++ [s.requestId]).count id = s.pending.count id := by
          simp [List.count_append, List.count_cons, hid]
        refine ⟨?_, ?_, ?_, ?_⟩
        · rw [sentCount_append, outcomeCount_append, eS, eO, eP]
          omega
        · rw [sentCount_append, eS]
          omega
        · intro hge
          have hge2 : s.requestId + 1 ≤ id := hge
          rw [sentCount_append, eS, hfresh (by omega)]
        · intro hmem hmem2
          rcases List.mem_append.mp hmem with hm | hm
          · rcases List.mem_append.mp hmem2 with hm2 | hm2
            · exact hwr hm hm2
            · simp at hm2
          · simp at hm
            exact hid hm
    · have hw2 : writeOk = false := by
        cases writeOk
        · rfl
        · exact absurd rfl hw
      subst hw2
      simp only [sendStep, hp, if_true, Bool.false_eq_true, if_false]
      have herase : (s.pending ++ [s.requestId]).erase s.requestId = s.pending := by
        rw [List.erase_append_right _ hnotmem, List.erase_cons_head]
        simp
      rw [herase]
      intro id
      dsimp only
      obtain ⟨hbal, hle, hfresh, hwr⟩ := h id
      by_cases hid : id = s.requestId
      · rw [hid]
        have eS : sentCount s.requestId
            [Ev.sent s.requestId false, Ev.rejectedWrite s.requestId] = 1 := by
          simp [sentCount, List.countP_cons, isSentEv]
        have eO : outcomeCount s.requestId
            [Ev.sent s.requestId false, Ev.rejectedWrite s.requestId] = 1 := by
          simp [outcomeCount, List.countP_cons, isOutcome]
        refine ⟨?_, ?_, ?_, ?_⟩
        · rw [sentCount_append, outcomeCount_append, eS, eO, hsent0, hout0, hcnt0]
        · rw [sentCount_append, eS, hsent0]
        · intro hge
          exact absurd (show s.requestId + 1 ≤ s.requestId from hge) (by omega)
        · intro hmem _
          rcases List.mem_append.mp hmem with hm | hm
          · have := sent_mem_le _ _ _ hm
            omega
          · simp at hm
      · have hne : ¬ s.requestId = id := fun e => hid e.symm
        have eS : sentCount id [Ev.sent s.requestId false, Ev.rejectedWrite s.requestId] = 0 := by
          simp [sentCount, List.countP_cons, isSentEv, hne]
        have eO : outcomeCount id [Ev.sent s.requestId false, Ev.rejectedWrite s.requestId] = 0 := by
          simp [outcomeCount, List.countP_cons, isOutcome, hne]
        refine ⟨?_, ?_, ?_, ?_⟩
        · rw [sentCount_append, outcomeCount_append, eS, eO]
          omega
        · rw [sentCount_append, eS]
          omega
        · intro hge
          have hge2 : s.requestId + 1 ≤ id := hge
          rw [sentCount_append, eS, hfresh (by omega)]
        · intro hmem hmem2
          rcases List.mem_append.mp hmem with hm | hm
          · rcases List.mem_append.mp hmem2 with hm2 | hm2
            · exact hwr hm hm2
            · simp at hm2
              exact hid hm2
          · simp at hm
  · have hp2 : s.processLive = false := by
      cases hpl : s.processLive
      · rfl
      · exact absurd hpl hp
    simp only [sendStep, hp2, Bool.false_eq_true, if_false]
    intro id
    dsimp only
    obtain ⟨hbal, hle, hfresh, hwr⟩ := h id
    refine ⟨?_, ?_, ?_, ?_⟩
    · simpa [sentCount_append, outcomeCount_append] using hbal
    · simpa [sentCount_append] using hle
    · intro hge
      have hge2 : s.requestId + 1 ≤ id := hge
      simpa [sentCount_append] using hfresh (by omega)
    · intro hmem hmem2
      simp at hmem hmem2
      exact hwr hmem hmem2

theorem recvStep_preserves (s : CState) (evs : List Ev) (m : Msg) (h : Inv s evs) :
    Inv (recvStep s m).1 (evs ++ (recvStep s m).2) := by
  have hframe : ∀ (s2 : CState) (l : List Ev), s2.pending = s.pending →
      s2.requestId = s.requestId →
      (∀ id, sentCount id l = 0) → (∀ id, outcomeCount id l = 0) →
      (∀ id, Ev.sent id true ∉ l) → (∀ id, Ev.rejectedWrite id ∉ l) →
      Inv s2 (evs ++ l) :=
    fun s2 l a b c d e f => Inv_frame s s2 evs l a b c d e f h
  cases hmi : m.id with
  | none =>
    simp only [recvStep, hmi]
    by_cases hmt : methodTruthy m = true
    · rw [if_pos hmt]
      exact hframe s [Ev.notif (m.method.getD [])] rfl rfl
        (fun id => by simp [sentCount, List.countP_cons, isSentEv])
        (fun id => by simp [outcomeCount, List.countP_cons, isOutcome])
        (fun id => by simp) (fun id => by simp)
    · rw [if_neg hmt]
      simpa using h
  | some i =>
    simp only [recvStep, hmi]
    by_cases hc : idTruthy m = true ∧ i ∈ s.pending
    · rw [if_pos hc]
      cases hhe : m.hasError with
      | false =>
        dsimp only
        rw [if_neg (by simp : ¬ ((false : Bool) = true))]
        exact Inv_settle s evs i (Ev.resolved i) hc.2 (fun id => rfl) (fun id => rfl)
          (fun id => by simp) h
      | true =>
        dsimp only
        rw [if_pos rfl]
        exact Inv_settle s evs i (Ev.rejectedError i) hc.2 (fun id => rfl) (fun id => rfl)
          (fun id => by simp) h
    · rw [if_neg hc]
      by_cases hmt : methodTruthy m = true
      · rw [if_pos hmt]
        exact hframe s [Ev.notif (m.method.getD [])] rfl rfl
          (fun id => by simp [sentCount, List.countP_cons, isSentEv])
          (fun id => by simp [outcomeCount, List.countP_cons, isOutcome])
          (fun id => by simp) (fun id => by simp)
      · rw [if_neg hmt]
        simpa using h

theorem timerStep_preserves (s : CState) (evs : List Ev) (tid : Nat) (h : Inv s evs) :
    Inv (timerStep s tid).1 (evs ++ (timerStep s tid).2) := by
  by_cases hc : tid ∈ s.pending
  · simp only [timerStep]
    rw [if_pos hc]
    exact Inv_settle s evs tid (Ev.rejectedTimeout tid) hc (fun id => rfl) (fun id => rfl)
      (fun id => by simp) h
  · simp only [timerStep]
    rw [if_neg hc]
    simpa using h

theorem sentCount_closedMap (id : Nat) (p : List Nat) :
    sentCount id (p.map Ev.rejectedClosed) = 0 := by
  induction p with
  | nil => rfl
  | cons x xs ih =>
    simp only [List.map_cons, sentCount, List.countP_cons] at ih ⊢
    simp [ih, isSentEv]

theorem cleanupStep_preserves (s : CState) (evs : List Ev) (h : Inv s evs) :
    Inv (cleanupStep s).1 (evs ++ (cleanupStep s).2) := by
  have key : ∀ (K : List Ev), (∀ id, sentCount id K = 0) →
      (∀ id, outcomeCount id K = 0) →
      (∀ id, Ev.sent id true ∉ K) → (∀ id, Ev.rejectedWrite id ∉ K) →
      ∀ (s2 : CState), s2.pending = [] → s2.requestId = s.requestId →
      Inv s2 (evs ++ (K ++ s.pending.map Ev.rejectedClosed ++ [Ev.disconnectedSig])) := by
    intro K hK1 hK2 hK3 hK4 s2 hp2 hr2
    intro id
    obtain ⟨hbal, hle, hfresh, hwr⟩ := h id
    have e1 : sentCount id [Ev.disconnectedSig] = 0 := by
      simp [sentCount, List.countP_cons, isSentEv]
    have e2 : outcomeCount id [Ev.disconnectedSig] = 0 := by
      simp [outcomeCount, List.countP_cons, isOutcome]
    rw [hp2, hr2]
    refine ⟨?_, ?_, ?_, ?_⟩
    · rw [sentCount_append, sentCount_append, sentCount_append, hK1,
        sentCount_closedMap, e1, outcomeCount_append, outcomeCount_append,
        outcomeCount_append, hK2, outcomeCount_closedMap, e2, List.count_nil]
      omega
    · rw [sentCount_append, sentCount_append, sentCount_append, hK1,
        sentCount_closedMap, e1]
      omega
    · intro hge
      rw [sentCount_append, sentCount_append, sentCount_append, hK1,
        sentCount_closedMap, e1, hfresh hge]
    · intro hmem hmem2
      have hm1 : Ev.sent id true ∈ evs := by
        rcases List.mem_append.mp hmem with hm | hm
        · exact hm
        · exfalso
          rcases List.mem_append.mp hm with hm' | hm'
          · rcases List.mem_append.mp hm' with hm2' | hm2'
            · exact hK3 id hm2'
            · rcases List.mem_map.mp hm2' with ⟨x, _, hx⟩
              simp at hx
          · simp at hm'
      have hm2 : Ev.rejectedWrite id ∈ evs := by
        rcases List.mem_append.mp hmem2 with hm | hm
        · exact hm
        · exfalso
          rcases List.mem_append.mp hm with hm' | hm'
          · rcases List.mem_append.mp hm' with hm2' | hm2'
            · exact hK4 id hm2'
            · rcases List.mem_map.mp hm2' with ⟨x, _, hx⟩
              simp at hx
          · simp at hm'
      exact hwr hm1 hm2
  by_cases hp : s.processLive = true
  · simp only [cleanupStep, hp, if_true]
    exact key [Ev.sigterm]
      (fun id => by simp [sentCount, List.countP_cons, isSentEv])
      (fun id => by simp [outcomeCount, List.countP_cons, isOutcome])
      (fun id => by simp) (fun id => by simp) _ rfl rfl
  · have hp2 : s.processLive = false := by
      cases hpl : s.processLive
      · rfl
      · exact absurd hpl hp
    simp only [cleanupStep, hp2, Bool.false_eq_true, if_false]
    have hk := key []
      (fun id => rfl) (fun id => rfl)
      (fun id => by simp) (fun id => by simp)
      { s with pending := [], inited := false } rfl rfl
    simpa using hk

theorem forceKillStep_preserves (s : CState) (evs : List Ev) (h : Inv s evs) :
    Inv (forceKillStep s).1 (evs ++ (forceKillStep s).2) := by
  by_cases hc : s.processLive = true ∧ ¬ s.procKilled = true
  · simp only [forceKillStep]
    rw [if_pos hc]
    exact Inv_frame s _ evs [Ev.sigkill] rfl rfl
      (fun id => by simp [sentCount, List.countP_cons, isSentEv])
      (fun id => by simp [outcomeCount, List.countP_cons, isOutcome])
      (fun id => by simp) (fun id => by simp) h
  · simp only [forceKillStep]
    rw [if_neg hc]
    simpa using h

theorem step_preserves (s : CState) (evs : List Ev) (a : Act) (h : Inv s evs) :
    Inv (step s a).1 (evs ++ (step s a).2) := by
  cases a with
  | send w => exact sendStep_preserves s evs w h
  | recv m => exact recvStep_preserves s evs m h
  | timerFire i => exact timerStep_preserves s evs i h
  | cleanupAct => exact cleanupStep_preserves s evs h
  | forceKill => exact forceKillStep_preserves s evs h

theorem Inv_ready (rid : Nat) : Inv (ready rid) [] := by
  intro id
  refine ⟨rfl, by simp [sentCount], fun _ => rfl, by simp⟩

theorem run_preserves (s : CState) (evs : List Ev) (acts : List Act) (h : Inv s evs) :
    Inv (run s acts).1 (evs ++ (run s acts).2) := by
  induction acts generalizing s evs with
  | nil => simpa [run] using h
  | cons a rest ih =>
    have h1 := step_preserves s evs a h
    have h2 := ih (step s a).1 (evs ++ (step s a).2) h1
    simpa [run, List.append_assoc] using h2

theorem run_Inv (rid : Nat) (acts : List Act) :
    Inv (run (ready rid) acts).1 (run (ready rid) acts).2 := by
  have hr := run_preserves (ready rid) [] acts (Inv_ready rid)
  simpa using hr

theorem disconnCount_closedMap (p : List Nat) :
    disconnCount (p.map Ev.rejectedClosed) = 0 := by
  induction p with
  | nil => rfl
  | cons x xs ih =>
    simp only [List.map_cons, disconnCount, List.countP_cons] at ih ⊢
    simp [ih]

/-- Every step emits `disconnected` exactly when it is a `cleanup()` call,
and then exactly once. -/
theorem disconnCount_step (s : CState) (a : Act) :
    disconnCount (step s a).2 = if a = Act.cleanupAct then 1 else 0 := by
  cases a with
  | send w =>
    simp only [step, sendStep]
    split
    · split <;> simp [disconnCount, List.countP_cons]
    · simp [disconnCount]
  | recv m =>
    cases hmi : m.id with
    | none =>
      simp only [step, recvStep, hmi]
      split <;> simp [disconnCount, List.countP_cons]
    | some i =>
      simp only [step, recvStep, hmi]
      split
      · dsimp only
        split <;> simp [disconnCount, List.countP_cons]
      · split <;> simp [disconnCount, List.countP_cons]
  | timerFire i =>
    simp only [step, timerStep]
    split <;> simp [disconnCount, List.countP_cons]
  | cleanupAct =>
    simp only [step, cleanupStep]
    by_cases hp : s.processLive = true
    · simp [hp, disconnCount_append, disconnCount_closedMap, disconnCount,
        List.countP_cons]
    · have hp2 : s.processLive = false := by
        cases hpl : s.processLive
        · rfl
        · exact absurd hpl hp
      simp [hp2, disconnCount_append, disconnCount_closedMap, disconnCount,
        List.countP_cons]
  | forceKill =>
    simp only [step, forceKillStep]
    split <;> simp [disconnCount, List.countP_cons]

theorem disconnCount_run (s : CState) (acts : List Act) :
    disconnCount (run s acts).2 = cleanupCount acts := by
  induction acts generalizing s with
  | nil => rfl
  | cons a rest ih =>
    have hs := disconnCount_step s a
    show disconnCount ((step s a).2 ++ (run (step s a).1 rest).2) = _
    rw [disconnCount_append, hs, ih]
    by_cases ha : a = Act.cleanupAct
    · simp [cleanupCount, List.countP_cons, ha]
      omega
    · simp [cleanupCount, List.countP_cons, ha]

/-- After `cleanup()` the connection's `this.process` field is null. -/
theorem cleanupStep_dead (s : CState) : (cleanupStep s).1.processLive = false := by
  by_cases hp : s.processLive = true
  · simp [cleanupStep, hp]
  · have hp2 : s.processLive = false := by
      cases hpl : s.processLive
      · rfl
      · exact absurd hpl hp
    simp [cleanupStep, hp2]

/-- A `cleanup()` call itself never sends SIGKILL (it only sends SIGTERM and
schedules the forced-kill timer). -/
theorem cleanupStep_no_sigkill (s : CState) : Ev.sigkill ∉ (cleanupStep s).2 := by
  by_cases hp : s.processLive = true
  · simp [cleanupStep, hp]
  · have hp2 : s.processLive = false := by
      cases hpl : s.processLive
      · rfl
      · exact absurd hpl hp
    simp [cleanupStep, hp2]

/-- Once `this.process` has been nulled it never becomes non-null again, and
no later step can send SIGKILL (the forced-kill timer guard reads
`this.process`). -/
theorem step_processLive_false (s : CState) (a : Act) (hp : s.processLive = false) :
    (step s a).1.processLive = false ∧ Ev.sigkill ∉ (step s a).2 := by
  cases a with
  | send w =>
    simp [step, sendStep, hp]
  | recv m =>
    cases hmi : m.id with
    | none =>
      simp only [step, recvStep, hmi]
      split <;> simp [hp]
    | some i =>
      simp only [step, recvStep, hmi]
      split
      · dsimp only
        constructor
        · exact hp
        · split <;> simp
      · split <;> simp [hp]
  | timerFire i =>
    simp only [step, timerStep]
    split <;> simp [hp]
  | cleanupAct =>
    exact ⟨cleanupStep_dead s, cleanupStep_no_sigkill s⟩
  | forceKill =>
    simp only [step, forceKillStep]
    have hc : ¬ (s.processLive = true ∧ ¬ s.procKilled = true) := by
      intro hand
      rw [hp] at hand
      simp at hand
    rw [if_neg hc]
    exact ⟨hp, by simp⟩

theorem run_processLive_false (s : CState) (acts : List Act) (hp : s.processLive = false) :
    (run s acts).1.processLive = false ∧ Ev.sigkill ∉ (run s acts).2 := by
  induction acts generalizing s with
  | nil => exact ⟨hp, by simp [run]⟩
  | cons a rest ih =>
    obtain ⟨h1, h2⟩ := step_processLive_false s a hp
    obtain ⟨h3, h4⟩ := ih (step s a).1 h1
    refine ⟨h3, ?_⟩
    show Ev.sigkill ∉ (step s a).2 ++ (run (step s a).1 rest).2
    intro hmem
    rcases List.mem_append.mp hmem with hm | hm
    · exact h2 hm
    · exact h4 hm

/-- C1: on any execution trace of a ready Child Connection, every request is
settled at most once; and a request that was issued by `sendRequest` with a
successful stdin write is settled exactly once provided its 30-second timer
eventually fires (the source schedules that timer unconditionally, so every
real execution extends to such a trace), and that settlement is never the
write-failure rejection - it is a matching response, the timeout rejection,
or the connection-closed rejection of teardown.  The invariant behind the
proof is that every settling code path first removes the id from
`pendingRequests`, so no second settlement can reach the same waiter. -/
theorem c1_request_settled_once (rid : Nat) (acts : List Act) (id : Nat) :
    outcomeCount id (run (ready rid) acts).2 ≤ 1 ∧
    (Ev.sent id true ∈ (run (ready rid) acts).2 →
      outcomeCount id (run (ready rid) (acts ++ [Act.timerFire id])).2 = 1 ∧
      Ev.rejectedWrite id ∉ (run (ready rid) (acts ++ [Act.timerFire id])).2) := by
  obtain ⟨hbal, hle, hfresh, hwr⟩ := run_Inv rid acts id
  constructor
  · omega
  · intro hmem
    have hs1 : 1 ≤ sentCount id (run (ready rid) acts).2 := sent_mem_le id true _ hmem
    have hsent1 : sentCount id (run (ready rid) acts).2 = 1 := le_antisymm hle hs1
    have hmemExt : Ev.sent id true ∈ (run (ready rid) (acts ++ [Act.timerFire id])).2 := by
      rw [run_append]
      exact List.mem_append.mpr (Or.inl hmem)
    have e0 : (run (run (ready rid) acts).1 [Act.timerFire id]).2
        = (timerStep (run (ready rid) acts).1 id).2 ++ [] := rfl
    have hcount : outcomeCount id (run (ready rid) (acts ++ [Act.timerFire id])).2
        = outcomeCount id (run (ready rid) acts).2
          + outcomeCount id (timerStep (run (ready rid) acts).1 id).2 := by
      rw [run_append, e0, List.append_nil, outcomeCount_append]
    constructor
    · by_cases hpend : id ∈ (run (ready rid) acts).1.pending
      · have hcp : 1 ≤ ((run (ready rid) acts).1.pending).count id :=
          List.count_pos_iff.mpr hpend
        have e2 : (timerStep (run (ready rid) acts).1 id).2 = [Ev.rejectedTimeout id] := by
          simp [timerStep, hpend]
        have ho : isOutcome id (Ev.rejectedTimeout id) = true := by simp [isOutcome]
        rw [hcount, e2, outcomeCount_single, ho]
        simp only [if_true]
        omega
      · have hcz : ((run (ready rid) acts).1.pending).count id = 0 :=
          List.count_eq_zero.mpr hpend
        have e2 : (timerStep (run (ready rid) acts).1 id).2 = [] := by
          simp [timerStep, hpend]
        have e3 : outcomeCount id ([] : List Ev) = 0 := rfl
        rw [hcount, e2, e3]
        omega
    · obtain ⟨hbE, hlE, hfE, hwE⟩ := run_Inv rid (acts ++ [Act.timerFire id]) id
      exact hwE hmemExt

/-- Witness for C1 at a concrete trace: one request sent (write ok) on a
fresh connection, then its timer fires. -/
theorem c1_request_settled_once_witness :
    outcomeCount 7 (run (ready 7) [Act.send true]).2 ≤ 1 ∧
    (outcomeCount 7 (run (ready 7) ([Act.send true] ++ [Act.timerFire 7])).2 = 1 ∧
     Ev.rejectedWrite 7 ∉ (run (ready 7) ([Act.send true] ++ [Act.timerFire 7])).2) :=
  ⟨(c1_request_settled_once 7 [Act.send true] 7).1,
   (c1_request_settled_once 7 [Act.send true] 7).2 (by decide)⟩

/-- C2 counterexample: `cleanup()` emits `disconnected` unconditionally, and
it runs twice when an external `disconnect()` (which calls `cleanup`, sending
SIGTERM) is followed by the child's `exit` event (whose handler calls
`cleanup` again): the single lifetime then emits `disconnected` twice, not
exactly once. -/
theorem c2_disconnected_twice :
    disconnCount (run (ready 2) [Act.cleanupAct, Act.cleanupAct]).2 = 2 ∧
    ¬ disconnCount (run (ready 2) [Act.cleanupAct, Act.cleanupAct]).2 = 1 := by
  decide

/-- C2 amended: `disconnected` is emitted exactly once per `cleanup()`
invocation (so exactly once for a lifetime with a single teardown trigger,
but twice when an external disconnect is followed by the child's exit). -/
theorem c2_disconnected_once_per_cleanup (rid : Nat) (acts : List Act) :
    disconnCount (run (ready rid) acts).2 = cleanupCount acts :=
  disconnCount_run (ready rid) acts

/-- C3: entering teardown with a live process sends SIGTERM, but the
`SIGKILL` escalation can never fire: `cleanup` nulls `this.process`
synchronously right after scheduling the 5-second timer (and `kill` also
marks the process object killed), so the timer guard
`this.process && !this.process.killed` is always false - no SIGKILL is ever
sent on any continuation of the trace, even for a child that survives
SIGTERM.  This contradicts the source's own comment "Force kill after 5
seconds if process doesn't exit". -/
theorem c3_sigkill_never_sent (s : CState) (acts : List Act)
    (hp : s.processLive = true) :
    Ev.sigterm ∈ (cleanupStep s).2 ∧
    Ev.sigkill ∉ (cleanupStep s).2 ∧
    Ev.sigkill ∉ (run (cleanupStep s).1 acts).2 := by
  refine ⟨?_, cleanupStep_no_sigkill s, (run_processLive_false _ acts (cleanupStep_dead s)).2⟩
  simp [cleanupStep, hp]

/-- Witness for C3: teardown of a fresh live connection followed by the
forced-kill timer firing sends no SIGKILL. -/
theorem c3_sigkill_never_sent_witness :
    Ev.sigterm ∈ (cleanupStep (ready 3)).2 ∧
    Ev.sigkill ∉ (cleanupStep (ready 3)).2 ∧
    Ev.sigkill ∉ (run (cleanupStep (ready 3)).1 [Act.forceKill]).2 :=
  c3_sigkill_never_sent (ready 3) [Act.forceKill] rfl

/-- C5 counterexample: a message whose `id` matches no pending request but
which carries a `method` field is not silently discarded - `handleResponse`
falls into the notification branch and emits a `notification` event, an
observable effect on the connection. -/
theorem c5_unmatched_with_method_emits :
    (recvStep (ready 5)
        { id := some 1, hasError := false, method := some ['p', 'i', 'n', 'g'] }).2
      = [Ev.notif ['p', 'i', 'n', 'g']] ∧
    ¬ (recvStep (ready 5)
        { id := some 1, hasError := false, method := some ['p', 'i', 'n', 'g'] }).2
      = [] := by
  decide

/-- C5 amended: a message with a truthy `id` matching no pending entry never
resolves or rejects any waiter and leaves the connection state unchanged; it
is completely discarded when its `method` field is absent or empty, but is
emitted as a server notification when it carries a nonempty `method`.  (A
late response arriving after its waiter timed out falls under this statement,
since the timeout removed the id from `pendingRequests`.) -/
theorem c5_unmatched_id_discarded (s : CState) (m : Msg) (i : Nat)
    (hmi : m.id = some i) (hi0 : ¬ i = 0) (hnp : i ∉ s.pending) :
    (recvStep s m).1 = s ∧
    (∀ id, outcomeCount id (recvStep s m).2 = 0) ∧
    (methodTruthy m = false → (recvStep s m).2 = []) ∧
    (methodTruthy m = true →
      (recvStep s m).2 = [Ev.notif (m.method.getD [])]) := by
  have hcond : ¬ (idTruthy m = true ∧ i ∈ s.pending) := fun hand => hnp hand.2
  simp only [recvStep, hmi]
  rw [if_neg hcond]
  by_cases hmt : methodTruthy m = true
  · rw [if_pos hmt]
    refine ⟨rfl, ?_, ?_, ?_⟩
    · intro id
      simp [outcomeCount, List.countP_cons, isOutcome]
    · intro hf
      rw [hmt] at hf
      exact absurd hf (by simp)
    · intro _
      rfl
  · rw [if_neg hmt]
    have hmf : methodTruthy m = false := by
      cases hv : methodTruthy m
      · rfl
      · exact absurd hv hmt
    refine ⟨rfl, ?_, ?_, ?_⟩
    · intro id
      rfl
    · intro _
      rfl
    · intro ht
      rw [hmf] at ht
      exact absurd ht (by simp)

/-- Witness for C5 at a concrete unmatched message carrying a method. -/
theorem c5_unmatched_id_discarded_witness :
    (recvStep (ready 6) { id := some 1, hasError := false, method := some ['x'] }).1
      = ready 6 ∧
    (∀ id, outcomeCount id
      (recvStep (ready 6) { id := some 1, hasError := false, method := some ['x'] }).2 = 0) ∧
    (methodTruthy { id := some 1, hasError := false, method := some ['x'] } = false →
      (recvStep (ready 6) { id := some 1, hasError := false, method := some ['x'] }).2 = []) ∧
    (methodTruthy { id := some 1, hasError := false, method := some ['x'] } = true →
      (recvStep (ready 6) { id := some 1, hasError := false, method := some ['x'] }).2
        = [Ev.notif (Option.getD (Msg.method { id := some 1, hasError := false, method := some ['x'] }) [])]) :=
  c5_unmatched_id_discarded (ready 6)
    { id := some 1, hasError := false, method := some ['x'] } 1 rfl
    (by decide) (by decide)

/-- C6: framing is a pure function of the byte stream, independent of chunk
boundaries.  (1) feeding `c1 ++ c2` equals feeding `c1` then `c2` (same final
buffer, concatenated dispatches); (2) the dispatched messages are exactly the
per-line results over the complete lines, so a malformed line contributes
nothing and cannot affect neighbouring valid lines (and the `for` loop never
throws, so the connection is not torn down); (3) lines that are empty after
trimming are ignored; (4) a line that fails to parse is dropped; (5) a
newline-terminated message split at any position `k` across two reads yields
exactly one parsed message. -/
theorem c6_framing {α : Type} (parse : List Char → Option α) :
    (∀ buf c1 c2, handleStdout parse buf (c1 ++ c2) =
      ((handleStdout parse (handleStdout parse buf c1).1 c2).1,
       (handleStdout parse buf c1).2 ++
         (handleStdout parse (handleStdout parse buf c1).1 c2).2)) ∧
    (∀ buf data, (handleStdout parse buf data).2
      = ((splitNl (buf ++ data)).dropLast).filterMap (processLine parse)) ∧
    (∀ line, trimChars line = [] → processLine parse line = none) ∧
    (∀ line, parse (trimChars line) = none → processLine parse line = none) ∧
    (∀ (l : List Char) (msg : α) (k : Nat), '\n' ∉ l → ¬ trimChars l = [] →
      parse (trimChars l) = some msg →
      (handleStdout parse [] (l.take k)).2 ++
        (handleStdout parse (handleStdout parse [] (l.take k)).1
          (l.drop k ++ ['\n'])).2
        = [msg]) := by
  refine ⟨handleStdout_append parse, fun buf data => rfl, ?_, ?_, ?_⟩
  · intro line h
    simp [processLine, h]
  · intro line h
    by_cases ht : trimChars line = []
    · simp [processLine, ht]
    · simp [processLine, ht, h]
  · intro l msg k hnl htr hp
    have hsplit : splitNl l = [l] := splitNl_of_no_newline l hnl
    have happ := handleStdout_append parse [] (l.take k) (l.drop k ++ ['\n'])
    have hjoin : l.take k ++ (l.drop k ++ ['\n']) = l ++ ['\n'] := by
      rw [← List.append_assoc, List.take_append_drop]
    rw [hjoin] at happ
    have h0 : splitNl ['\n'] = [[], []] := rfl
    have h1 : splitNl (l ++ ['\n']) = [l, []] := by
      rw [splitNl_append, hsplit, h0]
      simp [lastOr, glueHead]
    have h2 : processLine parse l = some msg := by
      simp [processLine, htr, hp]
    have hwhole : handleStdout parse [] (l ++ ['\n']) = ([], [msg]) := by
      simp [handleStdout, h1, h2, lastOr]
    have hsnd : (handleStdout parse [] (l.take k)).2 ++
        (handleStdout parse (handleStdout parse [] (l.take k)).1
          (l.drop k ++ ['\n'])).2
        = (handleStdout parse [] (l ++ ['\n'])).2 := (congrArg Prod.snd happ).symm
    rw [hwhole] at hsnd
    exact hsnd

/-- Witness for C6 at a concrete parser and concrete inputs: an all-blank
line is ignored, an unparsable blank line is dropped, and the one-character
message split at position 0 arrives exactly once. -/
theorem c6_framing_witness :
    processLine (fun l : List Char => if l.isEmpty then none else some l.length)
      [' '] = none ∧
    processLine (fun l : List Char => if l.isEmpty then none else some l.length)
      ['\t'] = none ∧
    (handleStdout (fun l : List Char => if l.isEmpty then none else some l.length)
        [] (List.take 0 ['a'])).2 ++
      (handleStdout (fun l : List Char => if l.isEmpty then none else some l.length)
        (handleStdout (fun l : List Char => if l.isEmpty then none else some l.length)
          [] (List.take 0 ['a'])).1
        (List.drop 0 ['a'] ++ ['\n'])).2 = [1] :=
  ⟨(c6_framing (fun l : List Char => if l.isEmpty then none else some l.length)).2.2.1
      [' '] rfl,
   (c6_framing (fun l : List Char => if l.isEmpty then none else some l.length)).2.2.2.1
      ['\t'] rfl,
   (c6_framing (fun l : List Char => if l.isEmpty then none else some l.length)).2.2.2.2
      ['a'] 1 0 (by decide) (by decide) rfl⟩

/-! ## `connect` and the initialize handshake (mcp-client.js lines 17-69, 88-116) -/

/-- Outcome of the initialize handshake run inside `connect`: either both the
`initialize` request and the `notifications/initialized` notification
succeed, or one of the steps fails (request write failure, request timeout,
protocol error, or notification write failure). -/
inductive HandshakeOutcome where
  | ok
  | reqFailed
  | notifFailed
deriving DecidableEq

/-- Observable result of `connect` settling: whether the promise resolved,
the `initialized` flag, every signal sent to the spawned child during
`connect`, and whether a spawned child process is left running (assuming the
child itself does not exit). -/
structure ConnectResult where
  ok : Bool
  inited : Bool
  signalsSent : List Ev
  childRunning : Bool
deriving DecidableEq

/-- Model of `connect` (mcp-client.js lines 17-69): spawn the child (reject
if spawn throws), reject if any stdio stream is missing, attach the handlers,
then run the handshake; on success set `initialized := true` and resolve, on
failure reject via `.catch(reject)`.  No branch of `connect` sends any signal
to the spawned process. -/
def connectModel (spawnOk streamsOk : Bool) (h : HandshakeOutcome) : ConnectResult :=
  if ¬ spawnOk then
    { ok := false, inited := false, signalsSent := [], childRunning := false }
  else if ¬ streamsOk then
    { ok := false, inited := false, signalsSent := [], childRunning := true }
  else
    match h with
    | HandshakeOutcome.ok =>
      { ok := true, inited := true, signalsSent := [], childRunning := true }
    | HandshakeOutcome.reqFailed =>
      { ok := false, inited := false, signalsSent := [], childRunning := true }
    | HandshakeOutcome.notifFailed =>
      { ok := false, inited := false, signalsSent := [], childRunning := true }

/-- C4 counterexample: when the initialize request fails (or times out),
`connect` rejects and `initialized` stays false, but no signal is ever sent
to the spawned child - it is left running, contradicting the claim that the
process is killed. -/
theorem c4_handshake_failure_leaves_child :
    (connectModel true true HandshakeOutcome.reqFailed).ok = false ∧
    (connectModel true true HandshakeOutcome.reqFailed).inited = false ∧
    (connectModel true true HandshakeOutcome.reqFailed).signalsSent = [] ∧
    (connectModel true true HandshakeOutcome.reqFailed).childRunning = true := by
  decide

/-- C4 amended: if any step of the handshake fails, `connect` fails and the
`initialized` flag remains false, but the spawned child process is not
killed: no signal is sent to it and it is left running. -/
theorem c4_handshake_failure_amended (h : HandshakeOutcome)
    (hne : ¬ h = HandshakeOutcome.ok) :
    (connectModel true true h).ok = false ∧
    (connectModel true true h).inited = false ∧
    (connectModel true true h).signalsSent = [] ∧
    (connectModel true true h).childRunning = true := by
  cases h with
  | ok => exact absurd rfl hne
  | reqFailed => decide
  | notifFailed => decide

/-- Witness for the amended C4 at the concrete failing handshake. -/
theorem c4_handshake_failure_amended_witness :
    (connectModel true true HandshakeOutcome.notifFailed).ok = false ∧
    (connectModel true true HandshakeOutcome.notifFailed).inited = false ∧
    (connectModel true true HandshakeOutcome.notifFailed).signalsSent = [] ∧
    (connectModel true true HandshakeOutcome.notifFailed).childRunning = true :=
  c4_handshake_failure_amended HandshakeOutcome.notifFailed (by decide)

/-! ## Result extraction of listTools / listResources
(mcp-client.js lines 118-131 and 154-167) -/

/-- Shape of a `tools/list` or `resources/list` response `result` object, as
far as the client inspects it: an optional `tools` and `resources` field. -/
structure ListPayload (α : Type) where
  tools : Option (List α)
  resources : Option (List α)
deriving DecidableEq

/-- A JSON-RPC response as inspected by `listTools`/`listResources`: the
`result` field may be absent. -/
structure RpcResponse (α : Type) where
  result : Option (ListPayload α)
deriving DecidableEq

/-- Model of `listTools` (mcp-client.js lines 118-131): throw when not
initialized, otherwise send `tools/list` and return
`response.result?.tools || []`. -/
def listTools (inited : Bool) (resp : RpcResponse α) : Except String (List α) :=
  if inited then Except.ok ((resp.result.bind ListPayload.tools).getD [])
  else Except.error "client not initialized"

/-- Model of `listResources` (mcp-client.js lines 154-167): throw when not
initialized, otherwise send `resources/list` and return
`response.result?.resources || []`. -/
def listResources (inited : Bool) (resp : RpcResponse α) : Except String (List α) :=
  if inited then Except.ok ((resp.result.bind ListPayload.resources).getD [])
  else Except.error "client not initialized"

/-- C10: on an initialized connection, for every successfully answered
`tools/list` (resp. `resources/list`) request, a missing `result` or a
missing `tools` (resp. `resources`) field yields the empty list rather than
a failure, and the returned value is always a list. -/
theorem c10_list_defaults {α : Type} (resp : RpcResponse α) :
    (resp.result = none → listTools true resp = Except.ok ([] : List α)) ∧
    (∀ r, resp.result = some r → r.tools = none →
      listTools true resp = Except.ok ([] : List α)) ∧
    (∃ l, listTools true resp = Except.ok l) ∧
    (resp.result = none → listResources true resp = Except.ok ([] : List α)) ∧
    (∀ r, resp.result = some r → r.resources = none →
      listResources true resp = Except.ok ([] : List α)) ∧
    (∃ l, listResources true resp = Except.ok l) := by
  refine ⟨?_, ?_, ⟨_, rfl⟩, ?_, ?_, ⟨_, rfl⟩⟩
  · intro h
    simp [listTools, h]
  · intro r hr ht
    simp [listTools, hr, ht]
  · intro h
    simp [listResources, h]
  · intro r hr ht
    simp [listResources, hr, ht]

/-- Witness for C10 at concrete responses missing `result` or the list
field. -/
theorem c10_list_defaults_witness :
    listTools true ({ result := none } : RpcResponse Nat) = Except.ok [] ∧
    listResources true ({ result := none } : RpcResponse Nat) = Except.ok [] ∧
    listTools true
      ({ result := some { tools := none, resources := some [4] } } : RpcResponse Nat)
      = Except.ok [] :=
  ⟨(c10_list_defaults ({ result := none } : RpcResponse Nat)).1 rfl,
   (c10_list_defaults ({ result := none } : RpcResponse Nat)).2.2.2.1 rfl,
   (c10_list_defaults
      ({ result := some { tools := none, resources := some [4] } } : RpcResponse Nat)).2.1
      { tools := none, resources := some [4] } rfl rfl⟩

/-! ## Manager (mcp-manager.js)

The manager's `configs` and `clients` JavaScript `Map`s are modelled as
insertion-ordered association lists with unique keys; `Map.get` is
`lookupKey`, `Map.set` is `setKey` (update in place or append), and
`Map.delete` is `removeKey`.  Live clients are opaque handles (`Nat`).  The
asynchronous calls a manager operation makes on a client (`client.connect()`,
`client.disconnect()`, `client.listTools()`, ...) are modelled by passing
their outcomes as parameters.
-/

/-- Error taxonomy of the Manager facade. -/
inductive MgrErr where
  | notRegistered (name : String)
  | notConnected (name : String)
  | connectFailed (name : String)
  | disconnectFailed (name : String)
deriving DecidableEq

/-- Registered server specification (the fields `connectServer` reads). -/
structure Config where
  command : String
  args : List String
  env : List (String × String)
  cwd : Option String
deriving DecidableEq

/-- The `customConfig` argument of `connectServer`: `command`, `args`, `cwd`
overlay the registered spec when present (JavaScript `||` / truthiness), the
`env` map is merged key-wise over the spec's. -/
structure Overrides where
  command : Option String
  args : Option (List String)
  env : List (String × String)
  cwd : Option String
deriving DecidableEq

/-- Model of `Map.prototype.get`. -/
def lookupKey (l : List (String × β)) (k : String) : Option β :=
  match l with
  | [] => none
  | (k2, v) :: rest => if k2 = k then some v else lookupKey rest k

/-- Model of `Map.prototype.set`: update an existing key in place, else
append. -/
def setKey (l : List (String × β)) (k : String) (v : β) : List (String × β) :=
  match l with
  | [] => [(k, v)]
  | (k2, w) :: rest => if k2 = k then (k2, v) :: rest else (k2, w) :: setKey rest k v

/-- Model of `Map.prototype.delete` on a unique-key map. -/
def removeKey (l : List (String × β)) (k : String) : List (String × β) :=
  l.filter (fun p => ! (p.1 == k))

theorem lookupKey_removeKey (l : List (String × β)) (k : String) :
    lookupKey (removeKey l k) k = none := by
  induction l with
  | nil => rfl
  | cons p rest ih =>
    by_cases hk : p.1 = k
    · simp [removeKey, hk] at ih ⊢
      exact ih
    · simp only [removeKey, List.filter_cons] at ih ⊢
      have : (! (p.1 == k)) = true := by simp [hk]
      rw [this]
      simp only [if_true]
      rw [lookupKey]
      rw [if_neg hk]
      exact ih

/-- Key-wise environment merge `{ ...config.env, ...customConfig.env }`. -/
def mergeEnv (base over : List (String × String)) : List (String × String) :=
  over.foldl (fun acc kv => setKey acc kv.1 kv.2) base

/-- The effective spec composed by `connectServer` (mcp-manager.js lines
195-200) from the registered config and the caller's overrides. -/
def effectiveConfig (cfg : Config) (ov : Overrides) : Config :=
  { command := ov.command.getD cfg.command,
    args := ov.args.getD cfg.args,
    env := mergeEnv cfg.env ov.env,
    cwd := match ov.cwd with
      | some c => some c
      | none => cfg.cwd }

/-- Manager state: the `configs` and `clients` maps. -/
structure MState where
  configs : List (String × Config)
  clients : List (String × Nat)
deriving DecidableEq

/-- Result of `connectServer`: the already-connected sentinel
`{ alreadyConnected: true }` or the success object naming the server. -/
inductive ConnectOutcome where
  | alreadyConnected
  | connected (name : String)
deriving DecidableEq

/-- Everything observable about one `connectServer` call: its returned value
or error, the manager state afterwards, and whether a child process was
spawned (and with which effective config). -/
structure ConnectStep where
  result : Except MgrErr ConnectOutcome
  state : MState
  spawned : Bool
  spawnedWith : Option Config

/-- Model of `connectServer` (mcp-manager.js lines 184-232).  `connectOk`
is the outcome of `await client.connect()`, `handle` the fresh client.  The
already-connected early return happens before any config composition or
spawn; an unregistered name is an error; otherwise a client is spawned with
the composed config and inserted into `clients` only on success. -/
def connectServer (st : MState) (name : String) (ov : Overrides)
    (connectOk : Bool) (handle : Nat) : ConnectStep :=
  if (lookupKey st.clients name).isSome then
    { result := Except.ok ConnectOutcome.alreadyConnected, state := st,
      spawned := false, spawnedWith := none }
  else
    match lookupKey st.configs name with
    | none =>
      { result := Except.error (MgrErr.notRegistered name), state := st,
        spawned := false, spawnedWith := none }
    | some cfg =>
      let mcpConfig := effectiveConfig cfg ov
      if connectOk then
        { result := Except.ok (ConnectOutcome.connected name),
          state := { st with clients := setKey st.clients name handle },
          spawned := true, spawnedWith := some mcpConfig }
      else
        { result := Except.error (MgrErr.connectFailed name), state := st,
          spawned := true, spawnedWith := some mcpConfig }

/-- Model of `disconnectServer` (mcp-manager.js lines 234-252).  `discFails`
is whether `await client.disconnect()` raised; the entry is removed from
`clients` in both the normal path and the catch block (which rethrows). -/
def disconnectServer (st : MState) (name : String) (discFails : Bool) :
    Option MgrErr × MState :=
  match lookupKey st.clients name with
  | none => (some (MgrErr.notConnected name), st)
  | some _ =>
    if discFails then
      (some (MgrErr.disconnectFailed name),
       { st with clients := removeKey st.clients name })
    else
      (none, { st with clients := removeKey st.clients name })

/-- Model of `listAllTools` (mcp-manager.js lines 266-282): iterate the live
clients; a failing `listTools` is caught and recorded as `[]`, a successful
one contributes its list.  The input pairs each connected server name with
the outcome of its `client.listTools()` call. -/
def listAllTools (clients : List (String × Except MgrErr (List τ))) :
    List (String × List τ) :=
  clients.map (fun p => (p.1,
    match p.2 with
    | Except.ok ts => ts
    | Except.error _ => []))

/-- Model of `listAllResources` (mcp-manager.js lines 302-318), identical in
structure to `listAllTools`. -/
def listAllResources (clients : List (String × Except MgrErr (List τ))) :
    List (String × List τ) :=
  clients.map (fun p => (p.1,
    match p.2 with
    | Except.ok ts => ts
    | Except.error _ => []))

/-- C7: `listAllTools` and `listAllResources` are total: they return an entry
for every live connection (so no per-server failure can fail the aggregate),
record the empty list for every server whose per-server call failed, and
record the actual list for every server whose call succeeded. -/
theorem c7_aggregate_resilient {τ : Type}
    (clients : List (String × Except MgrErr (List τ))) :
    (listAllTools clients).map Prod.fst = clients.map Prod.fst ∧
    (∀ n e, (n, Except.error e) ∈ clients →
      (n, ([] : List τ)) ∈ listAllTools clients) ∧
    (∀ n ts, (n, Except.ok ts) ∈ clients → (n, ts) ∈ listAllTools clients) ∧
    (listAllResources clients).map Prod.fst = clients.map Prod.fst ∧
    (∀ n e, (n, Except.error e) ∈ clients →
      (n, ([] : List τ)) ∈ listAllResources clients) ∧
    (∀ n ts, (n, Except.ok ts) ∈ clients → (n, ts) ∈ listAllResources clients) := by
  refine ⟨?_, ?_, ?_, ?_, ?_, ?_⟩
  · simp [listAllTools, List.map_map]
  · intro n e h
    exact List.mem_map.mpr ⟨(n, Except.error e), h, rfl⟩
  · intro n ts h
    exact List.mem_map.mpr ⟨(n, Except.ok ts), h, rfl⟩
  · simp [listAllResources, List.map_map]
  · intro n e h
    exact List.mem_map.mpr ⟨(n, Except.error e), h, rfl⟩
  · intro n ts h
    exact List.mem_map.mpr ⟨(n, Except.ok ts), h, rfl⟩

/-- Witness for C7: one healthy and one failing server. -/
theorem c7_aggregate_resilient_witness :
    ("bad", ([] : List Nat)) ∈
      listAllTools [("good", Except.ok [5]),
        ("bad", Except.error (MgrErr.notConnected "bad"))] ∧
    ("good", [5]) ∈
      listAllTools [("good", Except.ok [5]),
        ("bad", Except.error (MgrErr.notConnected "bad"))] ∧
    ("bad", ([] : List Nat)) ∈
      listAllResources [("good", Except.ok [5]),
        ("bad", Except.error (MgrErr.notConnected "bad"))] :=
  ⟨(c7_aggregate_resilient [("good", Except.ok [5]),
      ("bad", Except.error (MgrErr.notConnected "bad"))]).2.1 "bad"
      (MgrErr.notConnected "bad") (by simp),
   (c7_aggregate_resilient [("good", Except.ok [5]),
      ("bad", Except.error (MgrErr.notConnected "bad"))]).2.2.1 "good" [5] (by simp),
   (c7_aggregate_resilient [("good", Except.ok [5]),
      ("bad", Except.error (MgrErr.notConnected "bad"))]).2.2.2.2.1 "bad"
      (MgrErr.notConnected "bad") (by simp)⟩

/-- C8: after `disconnectServer(name)` on a connected name, the name is
absent from `clients` whether or not the graceful shutdown raised; on a name
that is not connected, it fails with the not-connected error and leaves the
state unchanged. -/
theorem c8_disconnect_removes (st : MState) (name : String) (df : Bool) :
    ((lookupKey st.clients name).isSome = true →
      lookupKey ((disconnectServer st name df).2).clients name = none) ∧
    (lookupKey st.clients name = none →
      (disconnectServer st name df).1 = some (MgrErr.notConnected name) ∧
      (disconnectServer st name df).2 = st) := by
  constructor
  · intro h
    cases hl : lookupKey st.clients name with
    | none =>
      rw [hl] at h
      simp at h
    | some v =>
      cases df <;> simp [disconnectServer, hl, lookupKey_removeKey]
  · intro h
    simp [disconnectServer, h]

/-- Witness for C8: removal on a connected name with a raising shutdown, and
the error on an unconnected name. -/
theorem c8_disconnect_removes_witness :
    lookupKey ((disconnectServer { configs := [], clients := [("a", 1)] }
      "a" true).2).clients "a" = none ∧
    ((disconnectServer { configs := [], clients := [("a", 1)] } "b" false).1
        = some (MgrErr.notConnected "b") ∧
      (disconnectServer { configs := [], clients := [("a", 1)] } "b" false).2
        = { configs := [], clients := [("a", 1)] }) :=
  ⟨(c8_disconnect_removes { configs := [], clients := [("a", 1)] } "a" true).1 rfl,
   (c8_disconnect_removes { configs := [], clients := [("a", 1)] } "b" false).2 rfl⟩

/-- C9: `connectServer` on a name already present in `clients` returns the
already-connected sentinel (not an error), spawns no process, and leaves the
whole manager state - both `clients` and `configs` - unchanged. -/
theorem c9_already_connected_noop (st : MState) (name : String) (ov : Overrides)
    (cOk : Bool) (handle : Nat)
    (h : (lookupKey st.clients name).isSome = true) :
    connectServer st name ov cOk handle =
      { result := Except.ok ConnectOutcome.alreadyConnected, state := st,
        spawned := false, spawnedWith := none } := by
  simp [connectServer, h]

/-- Witness for C9 at a concrete connected manager state. -/
theorem c9_already_connected_noop_witness :
    connectServer
        { configs := [("a", { command := "npx", args := [], env := [], cwd := none })],
          clients := [("a", 1)] }
        "a" { command := none, args := none, env := [], cwd := none } true 2 =
      { result := Except.ok ConnectOutcome.alreadyConnected,
        state := { configs := [("a", { command := "npx", args := [], env := [], cwd := none })],
                   clients := [("a", 1)] },
        spawned := false, spawnedWith := none } :=
  c9_already_connected_noop
    { configs := [("a", { command := "npx", args := [], env := [], cwd := none })],
      clients := [("a", 1)] }
    "a" { command := none, args := none, env := [], cwd := none } true 2 rfl

end MCP
